import Mathlib

/-!
A verification development for the commit-aggregation pipeline of the
lunar-code repository.  The definitions below are shallow embeddings of
src/lib/github.ts (the revision containing sendProgress and the batched
detail fetching) and src/lib/lunar.ts.  JavaScript numbers are modelled as
exact rationals, JavaScript counters as Nat/Int, JavaScript records
(objects used as string-keyed maps) as association lists in key insertion
order, and absent values (null/undefined) as Option.
-/

namespace LunarCode

/-- Truncation toward zero, the rounding used by the JavaScript `%` operator. -/
def jsTrunc (q : ℚ) : ℤ := if q < 0 then ⌈q⌉ else ⌊q⌋

/-- JavaScript remainder `x % y`, that is x - y * trunc (x / y); the sign of the
result follows the dividend. -/
def jsRem (x y : ℚ) : ℚ := x - y * (jsTrunc (x / y) : ℚ)

/-- JavaScript Math.round: round half toward positive infinity. -/
def jsRound (q : ℚ) : ℤ := ⌊q + 1 / 2⌋

/-- JavaScript string truthiness: the empty string is falsy. -/
def strTruthy (s : String) : Bool := s != ""

/-- Guard `x && p(x)` on an optional string, with JavaScript truthiness. -/
def optAnd (o : Option String) (p : String → Bool) : Bool :=
  match o with
  | none => false
  | some s => strTruthy s && p s

/-- Lookup in a JavaScript object modelled as an association list. -/
def getk {α : Type} : List (String × α) → String → Option α
  | [], _ => none
  | (k', v) :: rest, k => if k' = k then some v else getk rest k

/-- Assignment obj[k] = v: replace the value of an existing key in place,
else append the new key (JavaScript property insertion order). -/
def setk {α : Type} : List (String × α) → String → α → List (String × α)
  | [], k, v => [(k, v)]
  | (k', v') :: rest, k, v =>
      if k' = k then (k, v) :: rest else (k', v') :: setk rest k v

/-- Sum of the values of a string-keyed counter object. -/
def sumValues (m : List (String × ℕ)) : ℕ := (m.map Prod.snd).sum

/-- Epoch of the known new moon, 2000-01-01T00:00:00.000Z, in epoch
milliseconds (lunar.ts). -/
def knownNewMoonMs : ℚ := 946684800000

/-- Length of the lunar cycle in days (lunar.ts). -/
def lunarCycle : ℚ := 29.53058867

/-- Milliseconds per day, 1000 * 60 * 60 * 24 (lunar.ts). -/
def msPerDay : ℚ := 1000 * 60 * 60 * 24

/-- Cyclic phase value computed by getLunarPhase before its range tests:
(daysSinceNewMoon % lunarCycle) / lunarCycle, with the JavaScript `%`. -/
def phaseFraction (tMs : ℚ) : ℚ :=
  jsRem ((tMs - knownNewMoonMs) / msPerDay) lunarCycle / lunarCycle

/-- getLunarPhase from lunar.ts, taking the timestamp in epoch milliseconds. -/
def getLunarPhase (tMs : ℚ) : String :=
  if phaseFraction tMs < 0.0625 ∨ 0.9375 ≤ phaseFraction tMs then "New Moon"
  else if phaseFraction tMs < 0.1875 then "Waxing Crescent"
  else if phaseFraction tMs < 0.3125 then "First Quarter"
  else if phaseFraction tMs < 0.4375 then "Waxing Gibbous"
  else if phaseFraction tMs < 0.5625 then "Full Moon"
  else if phaseFraction tMs < 0.6875 then "Waning Gibbous"
  else if phaseFraction tMs < 0.8125 then "Last Quarter"
  else "Waning Crescent"

/-- The 8 phase labels, in the order they appear in lunar.ts. -/
def phaseLabels : List String :=
  ["New Moon", "Waxing Crescent", "First Quarter", "Waxing Gibbous",
   "Full Moon", "Waning Gibbous", "Last Quarter", "Waning Crescent"]

/-- The timeOfDay buckets of CommitStats. -/
structure TimeOfDay where
  dawn : ℕ
  day : ℕ
  dusk : ℕ
  night : ℕ
  deriving DecidableEq

/-- The largestCommit field of CommitStats. -/
structure LargestCommit where
  phase : String
  size : ℤ
  message : String
  date : String
  deriving DecidableEq

/-- The CommitStats accumulator of github.ts. -/
structure CommitStats where
  commitsByPhase : List (String × ℕ)
  averageCommitSize : List (String × ℤ)
  timeOfDay : TimeOfDay
  largestCommit : LargestCommit
  totalAdditions : ℤ
  totalDeletions : ℤ
  deriving DecidableEq

/-- The fresh accumulator built at the start of fetchUserCommits. -/
def initStats : CommitStats :=
  { commitsByPhase := []
    averageCommitSize := []
    timeOfDay := { dawn := 0, day := 0, dusk := 0, night := 0 }
    largestCommit := { phase := "", size := 0, message := "", date := "" }
    totalAdditions := 0
    totalDeletions := 0 }

/-- One listed commit, with the fields the pipeline reads.  authorEmail and
authorLogin model commit.commit.author?.email and commit.author?.login; dateMs
is the parsed author date in epoch milliseconds, hour the local hour returned
by date.getHours(), and dateStr the raw author date string. -/
structure GitHubCommitResponse where
  authorEmail : Option String
  authorLogin : Option String
  dateMs : ℚ
  hour : ℕ
  message : String
  dateStr : String
  deriving DecidableEq

/-- The stats object of a detailed commit response. -/
structure DiffStats where
  additions : ℤ
  deletions : ℤ
  total : ℤ
  deriving DecidableEq

/-- List of GitHub system emails and usernames to filter out (github.ts). -/
def GITHUB_SYSTEM_AUTHORS : List String :=
  ["noreply@github.com", "actions@github.com", "github-actions[bot]",
   "web-flow", "dependabot[bot]"]

/-- The commit filter of fetchUserCommits: skip system authors first, then
keep a commit when the login equals the username or the email is one of the
verified user emails. -/
def commitFilter (userEmails : List String) (username : String)
    (c : GitHubCommitResponse) : Bool :=
  if optAnd c.authorEmail (fun e => GITHUB_SYSTEM_AUTHORS.contains e) then false
  else if optAnd c.authorLogin (fun l => GITHUB_SYSTEM_AUTHORS.contains l) then false
  else c.authorLogin == some username
    || optAnd c.authorEmail (fun e => userEmails.contains e)

/-- One iteration of the basic per-commit loop of fetchUserCommits: count the
commit by lunar phase, then by time-of-day bucket. -/
def basicFold (c : GitHubCommitResponse) (s : CommitStats) : CommitStats :=
  let phase := getLunarPhase c.dateMs
  let byPhase := setk s.commitsByPhase phase ((getk s.commitsByPhase phase).getD 0 + 1)
  let s1 := { s with commitsByPhase := byPhase }
  if 4 ≤ c.hour ∧ c.hour < 8 then
    { s1 with timeOfDay := { s1.timeOfDay with dawn := s1.timeOfDay.dawn + 1 } }
  else if 8 ≤ c.hour ∧ c.hour < 16 then
    { s1 with timeOfDay := { s1.timeOfDay with day := s1.timeOfDay.day + 1 } }
  else if 16 ≤ c.hour ∧ c.hour < 20 then
    { s1 with timeOfDay := { s1.timeOfDay with dusk := s1.timeOfDay.dusk + 1 } }
  else
    { s1 with timeOfDay := { s1.timeOfDay with night := s1.timeOfDay.night + 1 } }

/-- The basic pass over the qualifying commits of one run. -/
def basicPass (cs : List GitHubCommitResponse) (s : CommitStats) : CommitStats :=
  cs.foldl (fun acc c => basicFold c acc) s

/-- One successful detailed-commit update of fetchUserCommits: guarded by the
truthiness of detailedCommit.stats?.total, add the commit size to the
per-phase running sum, accumulate additions and deletions, and replace the
largest commit only under strict greater-than on the total size. -/
def detailFold (c : GitHubCommitResponse) (st : Option DiffStats)
    (s : CommitStats) : CommitStats :=
  match st with
  | none => s
  | some d =>
    if d.total ≠ 0 then
      let phase := getLunarPhase c.dateMs
      let sizes := setk s.averageCommitSize phase ((getk s.averageCommitSize phase).getD 0 + d.total)
      let s1 := { s with averageCommitSize := sizes,
                         totalAdditions := s.totalAdditions + d.additions,
                         totalDeletions := s.totalDeletions + d.deletions }
      if d.total > s.largestCommit.size then
        { s1 with largestCommit := { phase := phase, size := d.total, message := c.message, date := c.dateStr } }
      else s1
    else s

/-- Outcome of one detail-fetch batch: ok carries the per-commit stats of the
resolved Promise.all, failed models its rejection. -/
inductive BatchResult where
  | ok (items : List (GitHubCommitResponse × Option DiffStats))
  | failed
  deriving DecidableEq

/-- The detail batch loop of fetchUserCommits: a successful batch folds each
of its items, a failed batch contributes nothing and the loop continues with
the next batch. -/
def processBatches (s : CommitStats) : List BatchResult → CommitStats
  | [] => s
  | BatchResult.ok items :: rest =>
      processBatches (items.foldl (fun acc it => detailFold it.1 it.2 acc) s) rest
  | BatchResult.failed :: rest => processBatches s rest

/-- JavaScript commitsByPhase[phase] || 1, the divisor guard of the averaging
step: a missing count and a zero count both give 1. -/
def countOr1 (o : Option ℕ) : ℕ :=
  match o with
  | none => 1
  | some n => if n = 0 then 1 else n

/-- The averaging step at the end of fetchUserCommits: every key of
averageCommitSize is divided by the matching commitsByPhase count and rounded. -/
def finalize (s : CommitStats) : CommitStats :=
  let averaged := s.averageCommitSize.map fun kv =>
    (kv.1, jsRound ((kv.2 : ℚ) / (countOr1 (getk s.commitsByPhase kv.1) : ℚ)))
  { s with averageCommitSize := averaged }

/-- The Bottleneck limiter settings, as configured and re-tuned by github.ts. -/
structure LimiterSettings where
  minTime : ℤ
  reservoir : ℤ
  reservoirRefreshAmount : ℤ
  reservoirRefreshInterval : ℤ
  deriving DecidableEq

/-- The limiter configuration at module load of github.ts. -/
def initialLimiter : LimiterSettings :=
  { minTime := 250
    reservoir := 1000
    reservoirRefreshAmount := 1000
    reservoirRefreshInterval := 60 * 60 * 1000 }

/-- updateRateLimits of github.ts as a pure transformer of the limiter
settings.  remaining and reset are the parsed response headers and now is
Math.floor(Date.now() / 1000); resetInMs = (reset - now) * 1000. -/
def updateRateLimits (remaining reset now : ℤ) (s : LimiterSettings) :
    LimiterSettings :=
  let resetInMs : ℤ := (reset - now) * 1000
  if remaining > 0 then
    let minTime := max 1000 ⌊(resetInMs : ℚ) / (remaining : ℚ)⌋
    { s with minTime := minTime, reservoir := remaining }
  else if resetInMs > 0 then
    { s with reservoir := 0,
             reservoirRefreshAmount := 5000,
             reservoirRefreshInterval := resetInMs }
  else s

/-- Outcome of processing one repository: ok, or a thrown error with its HTTP
status and the computed resetIn milliseconds (reset header times 1000 minus
Date.now()). -/
inductive RepoOutcome where
  | ok
  | err (status : ℤ) (resetIn : ℤ)
  deriving DecidableEq

/-- Observable control-flow events of the per-repository loop. -/
inductive WalkEv where
  | attempt (idx : ℕ)
  | sleep (ms : ℤ)
  deriving DecidableEq

/-- Control flow of the per-repository loop of fetchUserCommits: each
repository is processed once inside try; the catch arm tests statuses
404, 403 (sleeping until reset when it lies in the future) and 409, and in
every case execution falls through to the next repository of the for-of
loop. -/
def walkRepos : ℕ → List RepoOutcome → List WalkEv
  | _, [] => []
  | i, RepoOutcome.ok :: rs => WalkEv.attempt i :: walkRepos (i + 1) rs
  | i, RepoOutcome.err status resetIn :: rs =>
      WalkEv.attempt i ::
        ((if status = 404 then []
          else if status = 403 then
            (if resetIn > 0 then [WalkEv.sleep resetIn] else [])
          else if status = 409 then []
          else []) ++ walkRepos (i + 1) rs)

/-- Indices of the repositories attempted, in order. -/
def attemptsOf (es : List WalkEv) : List ℕ :=
  es.filterMap fun e =>
    match e with
    | WalkEv.attempt i => some i
    | _ => none

/-- One publication of sendProgress: a plain status message, the snapshot at
a repository boundary, the every-5-commits stats snapshot carrying the current
totalCommits, or the final completion message. -/
inductive PEv where
  | status
  | boundary (current total : ℕ)
  | snapshot (totalCommits : ℕ)
  | complete
  deriving DecidableEq

/-- Publications of the basic per-commit loop started at commit counter t: a
stats snapshot is published whenever the incremented counter is a multiple of
5.  Returns the events together with the final counter. -/
def basicPassEvents (t : ℕ) : List GitHubCommitResponse → List PEv × ℕ
  | [] => ([], t)
  | _ :: cs =>
      let t1 := t + 1
      let rest := basicPassEvents t1 cs
      ((if t1 % 5 = 0 then [PEv.snapshot t1] else []) ++ rest.1, rest.2)

/-- Publications of the per-repository loop: one boundary publication at the
head of each repository iteration, then the basic-pass snapshots.  The detail
batch loop publishes nothing. -/
def reposEvents (t idx nRepos : ℕ) :
    List (List GitHubCommitResponse) → List PEv
  | [] => []
  | r :: rs =>
      PEv.boundary (idx + 1) nRepos ::
        ((basicPassEvents t r).1 ++
          reposEvents (basicPassEvents t r).2 (idx + 1) nRepos rs)

/-- Publications of one fetchUserCommits run over the given repositories (each
given by its list of qualifying commits): the five pre-loop status messages,
the loop publications, then the completion message. -/
def runEvents (repos : List (List GitHubCommitResponse)) : List PEv :=
  [PEv.status, PEv.status, PEv.status, PEv.status, PEv.status] ++
    reposEvents 0 0 repos.length repos ++ [PEv.complete]

/-- The totalCommits values of the mid-run stats snapshots, in order. -/
def snapshotsOf (es : List PEv) : List ℕ :=
  es.filterMap fun e =>
    match e with
    | PEv.snapshot n => some n
    | _ => none

/-- Recognizer of the completion publication. -/
def isComplete (e : PEv) : Bool :=
  match e with
  | PEv.complete => true
  | _ => false

/-- Expected snapshot counters: the multiples of 5 among the next n counter
values after t. -/
def snapsIn (t : ℕ) : ℕ → List ℕ
  | 0 => []
  | n + 1 => (if (t + 1) % 5 = 0 then [t + 1] else []) ++ snapsIn (t + 1) n

/-! Facts about the phase classifier. -/

theorem lunarCycle_pos : (0 : ℚ) < lunarCycle := by norm_num [lunarCycle]

theorem msPerDay_pos : (0 : ℚ) < msPerDay := by norm_num [msPerDay]

theorem jsTrunc_of_nonneg (q : ℚ) (h : 0 ≤ q) : jsTrunc q = ⌊q⌋ := by
  unfold jsTrunc
  rw [if_neg (not_lt.2 h)]

theorem jsRem_div_eq_fract (x y : ℚ) (hx : 0 ≤ x) (hy : 0 < y) :
    jsRem x y / y = Int.fract (x / y) := by
  unfold jsRem
  rw [jsTrunc_of_nonneg _ (div_nonneg hx hy.le), Int.fract]
  rw [sub_div, mul_comm, mul_div_assoc, div_self hy.ne', mul_one]

theorem phaseFraction_eq_fract (t : ℚ) (h : knownNewMoonMs ≤ t) :
    phaseFraction t = Int.fract ((t - knownNewMoonMs) / msPerDay / lunarCycle) := by
  unfold phaseFraction
  exact jsRem_div_eq_fract _ _ (div_nonneg (by linarith) msPerDay_pos.le) lunarCycle_pos

theorem phaseFraction_period (t : ℚ) (h : knownNewMoonMs ≤ t) :
    phaseFraction (t + lunarCycle * msPerDay) = phaseFraction t := by
  have hm : (msPerDay : ℚ) ≠ 0 := msPerDay_pos.ne'
  have hc : (lunarCycle : ℚ) ≠ 0 := lunarCycle_pos.ne'
  have h2 : knownNewMoonMs ≤ t + lunarCycle * msPerDay := by
    have : (0 : ℚ) < lunarCycle * msPerDay := mul_pos lunarCycle_pos msPerDay_pos
    linarith
  have h1 : (t + lunarCycle * msPerDay - knownNewMoonMs) / msPerDay / lunarCycle
      = (t - knownNewMoonMs) / msPerDay / lunarCycle + 1 := by
    field_simp
    ring
  rw [phaseFraction_eq_fract _ h2, phaseFraction_eq_fract _ h, h1, Int.fract_add_one]

theorem getLunarPhase_congr (t1 t2 : ℚ) (h : phaseFraction t1 = phaseFraction t2) :
    getLunarPhase t1 = getLunarPhase t2 := by
  unfold getLunarPhase
  rw [h]

theorem getLunarPhase_mem (t : ℚ) : getLunarPhase t ∈ phaseLabels := by
  unfold getLunarPhase phaseLabels
  split_ifs <;> simp

/-- C4 counterexample: at timestamp 0 (1970-01-01, before the reference
new-moon epoch) the cyclic phase value of getLunarPhase is negative, because
the JavaScript remainder keeps the sign of its dividend. -/
theorem c4_preEpoch_fraction_neg : phaseFraction 0 < 0 := by
  have hd : ((0 : ℚ) - knownNewMoonMs) / msPerDay = -10957 := by
    norm_num [knownNewMoonMs, msPerDay]
  have hq : ((-10957 : ℚ) / lunarCycle) = -1095700000000 / 2953058867 := by
    norm_num [lunarCycle]
  have hceil : (⌈(-1095700000000 / 2953058867 : ℚ)⌉ : ℤ) = -371 := by
    rw [Int.ceil_eq_iff]
    norm_num
  have hrem : jsRem (-10957 : ℚ) lunarCycle < 0 := by
    unfold jsRem jsTrunc
    rw [hq, if_pos (by norm_num), hceil]
    norm_num [lunarCycle]
  unfold phaseFraction
  rw [hd]
  exact div_neg_of_neg_of_pos hrem lunarCycle_pos

/-- C4 (amended): for every timestamp at or after the reference new-moon
epoch the cyclic phase fraction is non-negative and lies in [0, 1); before
the epoch it can be negative. -/
theorem c4_phaseFraction_range (t : ℚ) (h : knownNewMoonMs ≤ t) :
    0 ≤ phaseFraction t ∧ phaseFraction t < 1 := by
  rw [phaseFraction_eq_fract t h]
  exact ⟨Int.fract_nonneg _, Int.fract_lt_one _⟩

/-- C4 witness: the range fact instantiated at the epoch itself. -/
theorem c4_phaseFraction_range_witness :
    0 ≤ phaseFraction knownNewMoonMs ∧ phaseFraction knownNewMoonMs < 1 :=
  c4_phaseFraction_range knownNewMoonMs (le_refl knownNewMoonMs)

/-- C5 counterexample: about half a cycle before the epoch the classifier
answers New Moon (the phase value is about -0.5, and every negative value
falls into the first branch), while one synodic month later it answers
Full Moon, so the claimed periodicity fails on pre-epoch timestamps. -/
theorem c5_period_fails_preEpoch :
    getLunarPhase 945409078569 ≠
      getLunarPhase (945409078569 + lunarCycle * msPerDay) := by
  have hd : ((945409078569 : ℚ) - knownNewMoonMs) / msPerDay = -1275721431 / 86400000 := by
    norm_num [knownNewMoonMs, msPerDay]
  have hneg : ((-1275721431 / 86400000 : ℚ) / lunarCycle) < 0 := by
    norm_num [lunarCycle]
  have hceil : (⌈(-1275721431 / 86400000 : ℚ) / lunarCycle⌉ : ℤ) = 0 := by
    rw [Int.ceil_eq_iff]
    norm_num [lunarCycle]
  have hfrac : phaseFraction 945409078569 = (-1275721431 / 86400000 : ℚ) / lunarCycle := by
    unfold phaseFraction jsRem jsTrunc
    rw [hd, if_pos hneg, hceil]
    push_cast
    ring
  have h1 : getLunarPhase 945409078569 = "New Moon" := by
    unfold getLunarPhase
    rw [hfrac, if_pos (Or.inl (by norm_num [lunarCycle]))]
  have hd1 : ((945409078569 : ℚ) + lunarCycle * msPerDay - knownNewMoonMs) / msPerDay
      = 159465178761 / 10800000000 := by
    norm_num [knownNewMoonMs, msPerDay, lunarCycle]
  have hpos : (0 : ℚ) ≤ (159465178761 / 10800000000 : ℚ) / lunarCycle := by
    norm_num [lunarCycle]
  have hfloor : (⌊(159465178761 / 10800000000 : ℚ) / lunarCycle⌋ : ℤ) = 0 := by
    rw [Int.floor_eq_iff]
    norm_num [lunarCycle]
  have hfrac1 : phaseFraction (945409078569 + lunarCycle * msPerDay)
      = (159465178761 / 10800000000 : ℚ) / lunarCycle := by
    unfold phaseFraction jsRem jsTrunc
    rw [hd1, if_neg (not_lt.2 hpos), hfloor]
    push_cast
    ring
  have h2 : getLunarPhase (945409078569 + lunarCycle * msPerDay) = "Full Moon" := by
    unfold getLunarPhase
    rw [hfrac1]
    rw [if_neg (by rw [not_or]; exact ⟨by norm_num [lunarCycle], by norm_num [lunarCycle]⟩)]
    rw [if_neg (by norm_num [lunarCycle])]
    rw [if_neg (by norm_num [lunarCycle])]
    rw [if_neg (by norm_num [lunarCycle])]
    rw [if_pos (by norm_num [lunarCycle])]
  rw [h1, h2]
  decide

/-- C5 (amended): the classifier always returns one of the 8 fixed phase
labels, and for every timestamp at or after the reference new-moon epoch it
is exactly periodic with period one synodic month; before the epoch the
periodicity can fail because the JavaScript remainder keeps the sign of its
dividend. -/
theorem c5_classifier_labels_and_period (t : ℚ) :
    getLunarPhase t ∈ phaseLabels ∧
      (knownNewMoonMs ≤ t →
        getLunarPhase (t + lunarCycle * msPerDay) = getLunarPhase t) :=
  ⟨getLunarPhase_mem t, fun h => getLunarPhase_congr _ _ (phaseFraction_period t h)⟩

/-- C5 witness: the label membership and the periodicity instantiated at the
epoch. -/
theorem c5_classifier_witness :
    getLunarPhase knownNewMoonMs ∈ phaseLabels ∧
      getLunarPhase (knownNewMoonMs + lunarCycle * msPerDay) = getLunarPhase knownNewMoonMs :=
  ⟨(c5_classifier_labels_and_period knownNewMoonMs).1,
    (c5_classifier_labels_and_period knownNewMoonMs).2 (le_refl knownNewMoonMs)⟩

/-! Facts about the commit filter. -/

/-- A commit whose author email is the no-reply denylist address while the
same address is among the verified user emails and the login equals the
username. -/
def c1Commit : GitHubCommitResponse :=
  { authorEmail := some "noreply@github.com"
    authorLogin := some "octocat"
    dateMs := 0
    hour := 0
    message := ""
    dateStr := "" }

/-- C1 counterexample: the author email of c1Commit is on the denylist, it is
also one of the verified user emails, and the login equals the target
username, yet the filter drops the commit: the denylist check runs first and
the allow check never takes precedence over it. -/
theorem c1_denylist_wins_over_allow :
    (∃ e, c1Commit.authorEmail = some e ∧ e ∈ GITHUB_SYSTEM_AUTHORS) ∧
    (∃ e, c1Commit.authorEmail = some e ∧ e ∈ (["noreply@github.com"] : List String)) ∧
    c1Commit.authorLogin = some "octocat" ∧
    commitFilter ["noreply@github.com"] "octocat" c1Commit = false :=
  ⟨⟨"noreply@github.com", rfl, by decide⟩,
   ⟨"noreply@github.com", rfl, by decide⟩, rfl, by decide⟩

/-- C1 (amended): the denylist takes precedence over the allow check.  Any
commit whose (truthy) author email or login is on the fixed denylist is
dropped, even when the email is one of the verified user emails or the login
equals the target username; the verified-email/username check only decides
commits that already passed the denylist. -/
theorem c1_denylist_precedence (userEmails : List String) (username : String)
    (c : GitHubCommitResponse)
    (h : optAnd c.authorEmail (fun e => GITHUB_SYSTEM_AUTHORS.contains e) = true ∨
      optAnd c.authorLogin (fun l => GITHUB_SYSTEM_AUTHORS.contains l) = true) :
    commitFilter userEmails username c = false := by
  unfold commitFilter
  rcases h with h | h
  · rw [if_pos h]
  · by_cases h2 : optAnd c.authorEmail (fun e => GITHUB_SYSTEM_AUTHORS.contains e) = true
    · rw [if_pos h2]
    · rw [if_neg h2, if_pos h]

/-- C1 witness: the precedence fact applied to c1Commit. -/
theorem c1_denylist_precedence_witness :
    commitFilter ["noreply@github.com"] "octocat" c1Commit = false :=
  c1_denylist_precedence ["noreply@github.com"] "octocat" c1Commit (Or.inl (by decide))

/-! Facts about the rate limiter re-tuning. -/

/-- C2 counterexample: with remaining = 10 and resetInMs = 5000 the re-tuned
minimum interval is max(1000, floor(5000 / 10)) = 1000 ms, not the exact
500 ms the claim requires, and in particular not ≤ 500. -/
theorem c2_minTime_is_1000_not_500 :
    (updateRateLimits 10 5 0 initialLimiter).minTime = 1000 ∧
    ¬ (updateRateLimits 10 5 0 initialLimiter).minTime ≤ 500 := by
  have h : (updateRateLimits 10 5 0 initialLimiter).minTime = 1000 := by
    unfold updateRateLimits
    rw [if_pos (by norm_num)]
    norm_num
  exact ⟨h, by rw [h]; norm_num⟩

/-- C2 (amended): with remaining = 10 and resetInMs = 5000 the re-tuned
minimum interval is 1000 ms (the 1000 ms floor dominates floor(5000/10) =
500) and the budget becomes 10; with remaining = 0 and resetInMs = 3000 the
budget becomes 0 and the refill interval exactly 3000 ms, so no call is
dispatched until the reset. -/
theorem c2_retune (s : LimiterSettings) :
    (updateRateLimits 10 5 0 s).minTime = 1000 ∧
    (updateRateLimits 10 5 0 s).reservoir = 10 ∧
    (updateRateLimits 0 3 0 s).reservoir = 0 ∧
    (updateRateLimits 0 3 0 s).reservoirRefreshInterval = 3000 := by
  refine ⟨?_, ?_, ?_, ?_⟩ <;>
    · unfold updateRateLimits
      norm_num

/-! Facts about the per-repository loop control flow. -/

theorem attemptsOf_append (a b : List WalkEv) :
    attemptsOf (a ++ b) = attemptsOf a ++ attemptsOf b :=
  List.filterMap_append a b _

theorem attemptsOf_cons_attempt (i : ℕ) (l : List WalkEv) :
    attemptsOf (WalkEv.attempt i :: l) = i :: attemptsOf l := rfl

theorem attemptsOf_cons_sleep (m : ℤ) (l : List WalkEv) :
    attemptsOf (WalkEv.sleep m :: l) = attemptsOf l := rfl

theorem attemptsOf_walkRepos (rs : List RepoOutcome) (i : ℕ) :
    attemptsOf (walkRepos i rs) = List.range' i rs.length := by
  induction rs generalizing i with
  | nil => rfl
  | cons r rs ih =>
    cases r with
    | ok =>
      rw [walkRepos, List.length_cons, List.range'_succ, attemptsOf_cons_attempt, ih]
    | err status resetIn =>
      rw [walkRepos, List.length_cons, List.range'_succ, attemptsOf_cons_attempt]
      split_ifs <;>
        simp only [List.nil_append, List.singleton_append, attemptsOf_cons_sleep, ih]

/-- C3 counterexample: a repository list whose first repository fails with
status 403 and a future reset of 5000 ms.  The walker sleeps for the 5000 ms
and then goes on; repository 0 is attempted exactly once, not retried. -/
theorem c3_403_not_retried :
    walkRepos 0 [RepoOutcome.err 403 5000] = [WalkEv.attempt 0, WalkEv.sleep 5000] ∧
    attemptsOf (walkRepos 0 [RepoOutcome.err 403 5000]) = [0] := by
  exact ⟨rfl, rfl⟩

/-- C3 (amended): on an HTTP 403 with a reset time in the future the walker
sleeps until the reset and then continues with the next repository; the
failed repository is abandoned without any retry, and every repository of a
run is attempted exactly once, in order. -/
theorem c3_sleep_then_skip (i : ℕ) (r : ℤ) (rs : List RepoOutcome) (hr : 0 < r) :
    walkRepos i (RepoOutcome.err 403 r :: rs) =
      WalkEv.attempt i :: WalkEv.sleep r :: walkRepos (i + 1) rs ∧
    attemptsOf (walkRepos i (RepoOutcome.err 403 r :: rs)) =
      List.range' i (rs.length + 1) := by
  constructor
  · rw [walkRepos]
    rw [if_neg (by norm_num), if_pos rfl, if_pos hr]
    rfl
  · rw [attemptsOf_walkRepos, List.length_cons]

/-- C3 witness: the sleep-then-skip fact on a concrete two-repository run. -/
theorem c3_sleep_then_skip_witness :
    walkRepos 0 [RepoOutcome.err 403 5000, RepoOutcome.ok] =
      WalkEv.attempt 0 :: WalkEv.sleep 5000 :: walkRepos (0 + 1) [RepoOutcome.ok] ∧
    attemptsOf (walkRepos 0 [RepoOutcome.err 403 5000, RepoOutcome.ok]) =
      List.range' 0 ([RepoOutcome.ok].length + 1) :=
  c3_sleep_then_skip 0 5000 [RepoOutcome.ok] (by norm_num)

/-! Facts about the basic fold and the phase-count invariant. -/

theorem sumValues_bump (m : List (String × ℕ)) (k : String) :
    sumValues (setk m k ((getk m k).getD 0 + 1)) = sumValues m + 1 := by
  induction m with
  | nil => rfl
  | cons kv rest ih =>
    obtain ⟨k', v⟩ := kv
    by_cases h : k' = k
    · subst h
      simp [setk, getk, sumValues]
      omega
    · simp only [setk, getk, if_neg h, sumValues, List.map_cons, List.sum_cons] at *
      omega

theorem basicFold_commitsByPhase (c : GitHubCommitResponse) (s : CommitStats) :
    (basicFold c s).commitsByPhase =
      setk s.commitsByPhase (getLunarPhase c.dateMs)
        ((getk s.commitsByPhase (getLunarPhase c.dateMs)).getD 0 + 1) := by
  unfold basicFold
  split_ifs <;> rfl

theorem sumValues_basicPass (cs : List GitHubCommitResponse) (s : CommitStats) :
    sumValues (basicPass cs s).commitsByPhase = cs.length + sumValues s.commitsByPhase := by
  induction cs generalizing s with
  | nil => simp [basicPass]
  | cons c cs ih =>
    have hstep : basicPass (c :: cs) s = basicPass cs (basicFold c s) := rfl
    rw [hstep, ih, basicFold_commitsByPhase, sumValues_bump, List.length_cons]
    omega

/-- C6: after folding any sequence of N qualifying commits into the fresh
accumulator via the basic per-commit loop, the values of commitsByPhase sum
to N.  Because the statement holds for every sequence, it holds in
particular for every prefix of a run, that is after every individual fold. -/
theorem c6_phase_counts_sum (cs : List GitHubCommitResponse) :
    sumValues (basicPass cs initStats).commitsByPhase = cs.length := by
  rw [sumValues_basicPass]
  rfl

/-! Facts about the finalization (averaging) step. -/

theorem jsRound_intCast (v : ℤ) : jsRound ((v : ℚ)) = v := by
  unfold jsRound
  rw [Int.floor_int_add]
  norm_num

/-- Stats with one phase holding 2 commits of 10 total changed lines. -/
def c7Stats : CommitStats :=
  { initStats with
    commitsByPhase := [("Full Moon", 2)]
    averageCommitSize := [("Full Moon", 10)] }

/-- C7 counterexample: finalizing c7Stats once turns the running sum 10 into
the average round(10 / 2) = 5; a second finalization divides again and gives
round(5 / 2) = 3, so finalize is not idempotent. -/
theorem c7_finalize_double_divides : finalize (finalize c7Stats) ≠ finalize c7Stats := by
  have hget : getk c7Stats.commitsByPhase "Full Moon" = some 2 := by
    rw [show c7Stats.commitsByPhase = [("Full Moon", 2)] from rfl, getk, if_pos rfl]
  have h1 : finalize c7Stats = { c7Stats with averageCommitSize := [("Full Moon", 5)] } := by
    unfold finalize
    rw [show c7Stats.averageCommitSize = [("Full Moon", 10)] from rfl]
    rw [List.map_cons, List.map_nil, hget]
    have : jsRound ((10 : ℤ) / (countOr1 (some 2) : ℚ)) = 5 := by
      unfold countOr1 jsRound
      norm_num
    rw [this]
  have hget2 : getk ({ c7Stats with averageCommitSize := [("Full Moon", 5)] } : CommitStats).commitsByPhase
      "Full Moon" = some 2 := hget
  have h2 : finalize { c7Stats with averageCommitSize := [("Full Moon", 5)] }
      = { c7Stats with averageCommitSize := [("Full Moon", 3)] } := by
    unfold finalize
    rw [show ({ c7Stats with averageCommitSize := [("Full Moon", 5)] } : CommitStats).averageCommitSize
          = [("Full Moon", 5)] from rfl]
    rw [List.map_cons, List.map_nil, hget2]
    have : jsRound ((5 : ℤ) / (countOr1 (some 2) : ℚ)) = 3 := by
      unfold countOr1 jsRound
      norm_num
    rw [this]
  rw [h1, h2]
  decide

/-- C7 (amended): finalize is not idempotent in general (a second call
divides the already-averaged values again); it is a no-op, and therefore
idempotent, whenever the divisor guard yields 1 for every key of
averageCommitSize, that is when each such phase has a missing, zero or 1
commitsByPhase count. -/
theorem c7_finalize_idempotent_of_unit_counts (s : CommitStats)
    (h : ∀ kv ∈ s.averageCommitSize, countOr1 (getk s.commitsByPhase kv.1) = 1) :
    finalize (finalize s) = finalize s := by
  have hfix : finalize s = s := by
    unfold finalize
    have hmap : (s.averageCommitSize.map fun kv =>
        (kv.1, jsRound ((kv.2 : ℚ) / (countOr1 (getk s.commitsByPhase kv.1) : ℚ))))
        = s.averageCommitSize := by
      conv_rhs => rw [← List.map_id s.averageCommitSize]
      refine List.map_congr_left fun kv hkv => ?_
      show (kv.1, jsRound ((kv.2 : ℚ) / (countOr1 (getk s.commitsByPhase kv.1) : ℚ))) = id kv
      rw [h kv hkv]
      simp [jsRound_intCast]
    rw [hmap]
  rw [hfix]
  exact hfix

/-- Stats with a single commit in the only phase of averageCommitSize. -/
def c7UnitStats : CommitStats :=
  { initStats with
    commitsByPhase := [("Full Moon", 1)]
    averageCommitSize := [("Full Moon", 10)] }

/-- C7 witness: idempotence on an accumulator whose only phase count is 1. -/
theorem c7_finalize_idempotent_witness :
    finalize (finalize c7UnitStats) = finalize c7UnitStats :=
  c7_finalize_idempotent_of_unit_counts c7UnitStats (by decide)

/-! Facts about the detailed fold and the largest commit. -/

theorem detailFold_largest_of_not_gt (c : GitHubCommitResponse) (d : DiffStats)
    (s : CommitStats) (hd : ¬ d.total > s.largestCommit.size) :
    (detailFold c (some d) s).largestCommit = s.largestCommit := by
  simp only [detailFold]
  split_ifs <;> rfl

theorem detailFold_le_largest (c : GitHubCommitResponse) (d : DiffStats)
    (s : CommitStats) (hd : d.total ≠ 0) :
    d.total ≤ (detailFold c (some d) s).largestCommit.size := by
  simp only [detailFold]
  rw [if_pos hd]
  split_ifs with hB
  · exact le_refl d.total
  · exact not_lt.1 hB

/-- C8: folding two detailed commits of equal total size in sequence never
lets the second one displace the largest commit chosen after the first: the
replacement uses a strict greater-than comparison. -/
theorem c8_largest_tie (s : CommitStats) (c1 c2 : GitHubCommitResponse)
    (d1 d2 : DiffStats) (h : d1.total = d2.total) :
    (detailFold c2 (some d2) (detailFold c1 (some d1) s)).largestCommit =
      (detailFold c1 (some d1) s).largestCommit := by
  by_cases h0 : d1.total = 0
  · have e1 : detailFold c1 (some d1) s = s := by
      simp only [detailFold]
      rw [if_neg (by omega)]
    have e2 : detailFold c2 (some d2) s = s := by
      simp only [detailFold]
      rw [if_neg (by omega)]
    rw [e1, e2]
  · apply detailFold_largest_of_not_gt
    have h1 := detailFold_le_largest c1 d1 s h0
    omega

/-- A commit used by concrete instantiations. -/
def sampleCommit : GitHubCommitResponse :=
  { authorEmail := none
    authorLogin := none
    dateMs := 0
    hour := 12
    message := ""
    dateStr := "" }

/-- A diff of 2 total changed lines. -/
def sampleDiff : DiffStats := { additions := 1, deletions := 1, total := 2 }

/-- C8 witness: the tie fact instantiated with two size-2 commits on the
fresh accumulator. -/
theorem c8_largest_tie_witness :
    (detailFold sampleCommit (some sampleDiff)
        (detailFold sampleCommit (some sampleDiff) initStats)).largestCommit =
      (detailFold sampleCommit (some sampleDiff) initStats).largestCommit :=
  c8_largest_tie initStats sampleCommit sampleCommit sampleDiff sampleDiff rfl

/-! Facts about the progress publications. -/

theorem basicPassEvents_counter (cs : List GitHubCommitResponse) (t : ℕ) :
    (basicPassEvents t cs).2 = t + cs.length := by
  induction cs generalizing t with
  | nil => rfl
  | cons c cs ih =>
    simp only [basicPassEvents, ih, List.length_cons]
    omega

theorem snapshotsOf_append (a b : List PEv) :
    snapshotsOf (a ++ b) = snapshotsOf a ++ snapshotsOf b :=
  List.filterMap_append a b _

theorem snapshotsOf_basicPassEvents (cs : List GitHubCommitResponse) (t : ℕ) :
    snapshotsOf (basicPassEvents t cs).1 = snapsIn t cs.length := by
  induction cs generalizing t with
  | nil => rfl
  | cons c cs ih =>
    simp only [basicPassEvents, List.length_cons]
    rw [snapshotsOf_append, ih, snapsIn]
    by_cases h5 : (t + 1) % 5 = 0
    · rw [if_pos h5, if_pos h5]
      rfl
    · rw [if_neg h5, if_neg h5]
      rfl

theorem snapsIn_add (t a b : ℕ) :
    snapsIn t (a + b) = snapsIn t a ++ snapsIn (t + a) b := by
  induction a generalizing t with
  | zero => simp [snapsIn]
  | succ a ih =>
    rw [show a + 1 + b = (a + b) + 1 from by omega]
    simp only [snapsIn]
    rw [ih, show t + (a + 1) = t + 1 + a from by omega, List.append_assoc]

theorem snapshotsOf_reposEvents (rs : List (List GitHubCommitResponse)) (t i n : ℕ) :
    snapshotsOf (reposEvents t i n rs) = snapsIn t (rs.map List.length).sum := by
  induction rs generalizing t i with
  | nil => rfl
  | cons r rs ih =>
    simp only [reposEvents, List.map_cons, List.sum_cons]
    rw [show ∀ l, snapshotsOf (PEv.boundary (i + 1) n :: l) = snapshotsOf l from
      fun _ => rfl]
    rw [snapshotsOf_append, snapshotsOf_basicPassEvents, ih, basicPassEvents_counter]
    rw [snapsIn_add]

theorem countP_isComplete_basicPassEvents (cs : List GitHubCommitResponse) (t : ℕ) :
    (basicPassEvents t cs).1.countP isComplete = 0 := by
  induction cs generalizing t with
  | nil => rfl
  | cons c cs ih =>
    simp only [basicPassEvents]
    rw [List.countP_append, ih]
    by_cases h5 : (t + 1) % 5 = 0
    · rw [if_pos h5]
      rfl
    · rw [if_neg h5]
      rfl

theorem countP_isComplete_reposEvents (rs : List (List GitHubCommitResponse)) (t i n : ℕ) :
    (reposEvents t i n rs).countP isComplete = 0 := by
  induction rs generalizing t i with
  | nil => rfl
  | cons r rs ih =>
    simp only [reposEvents]
    rw [show ∀ l, List.countP isComplete (PEv.boundary (i + 1) n :: l) = List.countP isComplete l from
      fun _ => rfl]
    rw [List.countP_append, countP_isComplete_basicPassEvents, ih]

/-- C9: a run whose basic pass processes exactly 12 qualifying commits
publishes exactly two mid-run stats snapshots, at the 5th and the 10th
processed commit, and exactly one completion publication, besides the
boundary publication of each repository. -/
theorem c9_progress_cadence (repos : List (List GitHubCommitResponse))
    (h : (repos.map List.length).sum = 12) :
    snapshotsOf (runEvents repos) = [5, 10] ∧
      (runEvents repos).countP isComplete = 1 := by
  constructor
  · unfold runEvents
    rw [snapshotsOf_append, snapshotsOf_append, snapshotsOf_reposEvents, h]
    rfl
  · unfold runEvents
    rw [List.countP_append, List.countP_append, countP_isComplete_reposEvents]
    rfl

/-- C9 witness: a run with a 7-commit repository followed by a 5-commit
repository. -/
theorem c9_progress_cadence_witness :
    snapshotsOf (runEvents [List.replicate 7 sampleCommit, List.replicate 5 sampleCommit])
        = [5, 10] ∧
      (runEvents [List.replicate 7 sampleCommit, List.replicate 5 sampleCommit]).countP
        isComplete = 1 :=
  c9_progress_cadence [List.replicate 7 sampleCommit, List.replicate 5 sampleCommit] rfl

/-! Facts about the isolation of detail-batch failures. -/

theorem detailFold_commitsByPhase (c : GitHubCommitResponse) (st : Option DiffStats)
    (s : CommitStats) : (detailFold c st s).commitsByPhase = s.commitsByPhase := by
  cases st with
  | none => rfl
  | some d =>
    simp only [detailFold]
    split_ifs <;> rfl

theorem detailFold_timeOfDay (c : GitHubCommitResponse) (st : Option DiffStats)
    (s : CommitStats) : (detailFold c st s).timeOfDay = s.timeOfDay := by
  cases st with
  | none => rfl
  | some d =>
    simp only [detailFold]
    split_ifs <;> rfl

theorem foldBatch_commitsByPhase (items : List (GitHubCommitResponse × Option DiffStats))
    (s : CommitStats) :
    (items.foldl (fun acc it => detailFold it.1 it.2 acc) s).commitsByPhase
      = s.commitsByPhase := by
  induction items generalizing s with
  | nil => rfl
  | cons it items ih => rw [List.foldl_cons, ih, detailFold_commitsByPhase]

theorem foldBatch_timeOfDay (items : List (GitHubCommitResponse × Option DiffStats))
    (s : CommitStats) :
    (items.foldl (fun acc it => detailFold it.1 it.2 acc) s).timeOfDay = s.timeOfDay := by
  induction items generalizing s with
  | nil => rfl
  | cons it items ih => rw [List.foldl_cons, ih, detailFold_timeOfDay]

/-- C10: the detail batch loop never touches the accumulator fields written
by the basic pass: over any sequence of batches, successful or failed,
commitsByPhase and timeOfDay are left exactly as the basic pass wrote them
(and the processed-commit total is not referenced by this loop at all); a
failed batch behaves exactly as if it were absent, so only that batch's
contribution to averageCommitSize, totalAdditions, totalDeletions and
largestCommit is missing while the run continues with the next batch. -/
theorem c10_batch_failure_frame (s : CommitStats) (bs : List BatchResult) :
    (processBatches s bs).commitsByPhase = s.commitsByPhase ∧
    (processBatches s bs).timeOfDay = s.timeOfDay ∧
    ∀ rest : List BatchResult,
      processBatches s (BatchResult.failed :: rest) = processBatches s rest := by
  refine ⟨?_, ?_, fun rest => rfl⟩
  · induction bs generalizing s with
    | nil => rfl
    | cons b bs ih =>
      cases b with
      | ok items => rw [processBatches, ih, foldBatch_commitsByPhase]
      | failed => rw [processBatches, ih]
  · induction bs generalizing s with
    | nil => rfl
    | cons b bs ih =>
      cases b with
      | ok items => rw [processBatches, ih, foldBatch_timeOfDay]
      | failed => rw [processBatches, ih]

end LunarCode
